import Mathlib

/-!
Verification of the axonet resilient HTTP middleware pipeline.

Each section shallowly embeds one source unit of the repository (and, where a
middleware delegates to a third-party library such as cenkalti/backoff,
sony/gobreaker, golang.org/x/time/rate or golang.org/x/sync/singleflight, the
relevant behaviour of that library) as executable Lean definitions.  The
theorems at the end of the file settle the specification claims against these
definitions.
-/

set_option maxRecDepth 4096

namespace Axonet

/-! ## Go error values (pkg/client/errors/errors.go)

A Go error value is either a sentinel created by errors.New, identified by
its allocation (modelled as a numeric id) and carrying its message, or a
wrapping error created by fmt.Errorf with %w verbs, whose Unwrap yields the
list of wrapped causes. -/

inductive GoError where
  | sentinel (id : Nat) (msg : String)
  | wrap (msg : String) (causes : List GoError)

mutual
/-- Structural equality of Go error values (interface equality: sentinels by
identity, wraps by content). -/
def GoError.beq : GoError → GoError → Bool
  | .sentinel i m, .sentinel j n => i == j && m == n
  | .wrap m cs, .wrap n ds => m == n && GoError.beqList cs ds
  | _, _ => false

/-- Structural equality over cause lists. -/
def GoError.beqList : List GoError → List GoError → Bool
  | [], [] => true
  | c :: cs, d :: ds => GoError.beq c d && GoError.beqList cs ds
  | _, _ => false
end

instance : BEq GoError := ⟨GoError.beq⟩

mutual
theorem GoError.beq_iff : ∀ a b : GoError, GoError.beq a b = true ↔ a = b
  | .sentinel i m, .sentinel j n => by
      simp [GoError.beq]
  | .sentinel i m, .wrap n ds => by simp [GoError.beq]
  | .wrap m cs, .sentinel j n => by simp [GoError.beq]
  | .wrap m cs, .wrap n ds => by
      simp [GoError.beq, GoError.beqList_iff cs ds]

theorem GoError.beqList_iff : ∀ cs ds : List GoError, GoError.beqList cs ds = true ↔ cs = ds
  | [], [] => by simp [GoError.beqList]
  | [], _ :: _ => by simp [GoError.beqList]
  | _ :: _, [] => by simp [GoError.beqList]
  | c :: cs, d :: ds => by
      simp [GoError.beqList, GoError.beq_iff c d, GoError.beqList_iff cs ds]
end

instance : DecidableEq GoError := fun a b =>
  decidable_of_iff (GoError.beq a b = true) (GoError.beq_iff a b)

/-- The message of an error, as returned by the Error method. -/
def GoError.message : GoError → String
  | .sentinel _ m => m
  | .wrap m _ => m

mutual
/-- errors.Is: err matches target when the two values are identical, or some
wrapped cause matches target. -/
def errIs (e t : GoError) : Bool :=
  e == t ||
    match e with
    | .sentinel _ _ => false
    | .wrap _ cs => errIsAny cs t

/-- errors.Is continued over the list of causes returned by Unwrap. -/
def errIsAny (cs : List GoError) (t : GoError) : Bool :=
  match cs with
  | [] => false
  | c :: cs => errIs c t || errIsAny cs t
end

/-- Declarative counterpart of the wrap-chain walk: t occurs in the chain of
an error.  Used to state claims independently of the Boolean traversal. -/
inductive InChain (t : GoError) : GoError → Prop where
  | here : InChain t t
  | via (m : String) (cs : List GoError) (c : GoError) :
      c ∈ cs → InChain t c → InChain t (GoError.wrap m cs)

/- Sentinels of pkg/client/errors/errors.go (each errors.New allocation gets
a distinct id), plus the sentinels of the Go standard library and of the
third-party packages that the middleware compares against. -/

def ErrTemporary : GoError := .sentinel 0 "temporary error"
def ErrPermanent : GoError := .sentinel 1 "permanent error"
def ErrNetwork : GoError := .sentinel 2 "network error"
def ErrTimeout : GoError := .sentinel 3 "timeout error"
def ErrBadStatus : GoError := .sentinel 4 "bad status code"
def ErrRetryFailed : GoError := .sentinel 5 "retry failed"
def ErrUnreachable : GoError := .sentinel 6 "unreachable code"

/-- context.Canceled from the Go standard library. -/
def ctxCanceled : GoError := .sentinel 7 "context canceled"

/-- context.DeadlineExceeded from the Go standard library. -/
def ctxDeadlineExceeded : GoError := .sentinel 8 "context deadline exceeded"

/-- gobreaker.ErrOpenState. -/
def gobreakerErrOpenState : GoError := .sentinel 9 "circuit breaker is open"

/-- gobreaker.ErrTooManyRequests. -/
def gobreakerErrTooManyRequests : GoError := .sentinel 10 "too many requests"

/-- ErrCircuitOpen defined locally in middleware/circuitbreaker. -/
def cbErrCircuitOpen : GoError := .sentinel 11 "circuit breaker is open"

/-- ErrCircuitExhausted defined locally in middleware/circuitbreaker. -/
def cbErrCircuitExhausted : GoError := .sentinel 12 "circuit breaker is exhausted"

/-- ErrRequestFailed defined locally in middleware/singleflight. -/
def sfErrRequestFailed : GoError := .sentinel 13 "request failed"

/-- The error returned by rate.Limiter.Wait when the required wait would pass
the context deadline (x/time/rate reports it via fmt.Errorf). -/
def rlWouldExceed : GoError := .sentinel 14 "rate: Wait(n=1) would exceed context deadline"

/-- fmt.Errorf with a leading %w and a second %w cause: the rendered message
joins the two messages and both arguments are wrapped. -/
def wrapPair (outer inner : GoError) : GoError :=
  .wrap (outer.message ++ ": " ++ inner.message) [outer, inner]

/-- IsTemporary from pkg/client/errors/errors.go: the error is temporary when
its chain holds ErrNetwork, ErrTimeout, ErrBadStatus or ErrTemporary. -/
def IsTemporary (err : GoError) : Bool :=
  errIs err ErrNetwork || errIs err ErrTimeout || errIs err ErrBadStatus ||
    errIs err ErrTemporary

/-! ## HTTP responses and the terminal transport call
(pkg/client/middleware/middleware_chain.go) -/

/-- The part of http.Response the middleware inspects. -/
structure Response where
  statusCode : Nat
deriving DecidableEq

/-- Outcome of httpClient.Do inside Chain.performRequest. -/
inductive TransportResult where
  | ok (resp : Response)
  | fail (err : GoError)
deriving DecidableEq

/-- Chain.performRequest: a transport failure is wrapped in ErrTimeout when
its chain holds context.DeadlineExceeded, in ErrNetwork otherwise; a transport
success is returned untouched. -/
def performRequest : TransportResult → Option Response × Option GoError
  | .ok resp => (some resp, none)
  | .fail err =>
      if errIs err ctxDeadlineExceeded then (none, some (wrapPair ErrTimeout err))
      else (none, some (wrapPair ErrNetwork err))

/-! ## Retry middleware (middleware/retry/retry.go with cenkalti/backoff/v4)

The downstream continuation is modelled as a function from the attempt number
(0-based) to the (response, error) pair it returns; backoff delays are
irrelevant to the claims and the context is never cancelled during them. -/

/-- What the operation closure inside Process returns to backoff.RetryNotify:
nil, a retryable error, or a backoff.Permanent error. -/
inductive RetryVerdict where
  | done
  | transient (e : GoError)
  | permanentStop (e : GoError)
deriving DecidableEq

/-- The error-classification half of handleRetryError (reached when resp is
nil or carries a status below 400). -/
def classifyErr : Option GoError → RetryVerdict
  | some e => if IsTemporary e then .transient e else .permanentStop e
  | none => .done

/-- RetryMiddleware.handleRetryError: a non-nil response with status 500+ or
429 yields a retryable ErrBadStatus, any other status 400+ a permanent
ErrBadStatus; otherwise the error, if any, is classified by IsTemporary. -/
def handleRetryError (resp : Option Response) (err : Option GoError) : RetryVerdict :=
  match resp with
  | some r =>
      if 500 ≤ r.statusCode then .transient ErrBadStatus
      else if r.statusCode == 429 then .transient ErrBadStatus
      else if 400 ≤ r.statusCode then .permanentStop ErrBadStatus
      else classifyErr err
  | none => classifyErr err

/-- The downstream continuation, indexed by attempt number. -/
def NextFn : Type := Nat → Option Response × Option GoError

/-- backoff.RetryNotify with backoff.WithMaxRetries: fuel is the number of
retries still allowed (numTries counting in WithMaxRetries); the delegate
ExponentialBackOff never stops on its own in the time-free setting.  Returns
(number of calls made, (resp, err)) where resp is the response captured from
the last call, as Process returns it alongside the error. -/
def retryAux (next : NextFn) (maxAttempts : Nat) (attempt fuel : Nat) :
    Nat × (Option Response × Option GoError) :=
  match handleRetryError (next attempt).1 (next attempt).2 with
  | .done => (attempt + 1, ((next attempt).1, none))
  | .permanentStop pe => (attempt + 1, ((next attempt).1, some pe))
  | .transient te =>
      if maxAttempts = 0 then (attempt + 1, ((next attempt).1, some te))
      else
        match fuel with
        | 0 => (attempt + 1, ((next attempt).1, some te))
        | fuel2 + 1 => retryAux next maxAttempts (attempt + 1) fuel2

/-- RetryMiddleware.Process: run the operation under
backoff.WithMaxRetries(ExponentialBackOff, maxAttempts) and return the last
response together with the error RetryNotify produced. -/
def RetryProcess (maxAttempts : Nat) (next : NextFn) : Nat × (Option Response × Option GoError) :=
  retryAux next maxAttempts 0 maxAttempts

/-! ## Circuit breaker middleware
(middleware/circuitbreaker/circuitbreaker.go with sony/gobreaker) -/

/-- The three states of a gobreaker.CircuitBreaker. -/
inductive CBState where
  | closed
  | opened
  | halfOpen
deriving DecidableEq

/-- What beforeRequest decides for an incoming call. -/
inductive BreakerDecision where
  | proceed
  | rejectOpen
  | rejectTooMany
deriving DecidableEq

/-- gobreaker beforeRequest: an Open breaker rejects with ErrOpenState, a
Half-Open breaker whose request count has reached MaxRequests rejects with
ErrTooManyRequests, and otherwise the call proceeds. -/
def beforeRequest (st : CBState) (requests maxRequests : Nat) : BreakerDecision :=
  match st with
  | .opened => .rejectOpen
  | .halfOpen => if maxRequests ≤ requests then .rejectTooMany else .proceed
  | .closed => .proceed

/-- gobreaker.Execute around the downstream call: on rejection the closure is
not run and Execute returns a nil interface with the sentinel; otherwise the
closure runs and its typed (possibly nil) *http.Response is stored in the
returned interface.  The `some` wrapper on the first component records that
the interface value is a typed *http.Response, as opposed to the nil
interface of the rejection path.  The Bool records whether next ran. -/
def gobreakerExecute (d : BreakerDecision) (next : Option Response × Option GoError) :
    Option (Option Response) × Option GoError × Bool :=
  match d with
  | .rejectOpen => (none, some gobreakerErrOpenState, false)
  | .rejectTooMany => (none, some gobreakerErrTooManyRequests, false)
  | .proceed => (some next.1, next.2, true)

/-- The type-assertion tail of Process: a typed *http.Response succeeds the
assertion even when the pointer is nil; the nil interface fails it. -/
def cbAssert (result : Option (Option Response)) (err : Option GoError) (called : Bool) :
    (Option Response × Option GoError) × Bool :=
  match result with
  | some resp => ((resp, err), called)
  | none => ((none, some ErrUnreachable), called)

/-- CircuitBreakerMiddleware.Process: run the call under the breaker, wrap
the two gobreaker rejection sentinels in the local circuit errors, and
otherwise hand the downstream pair through the type assertion unchanged. -/
def CircuitBreakerProcess (d : BreakerDecision) (next : Option Response × Option GoError) :
    (Option Response × Option GoError) × Bool :=
  match gobreakerExecute d next with
  | (result, err, called) =>
    match err with
    | some e =>
        if e = gobreakerErrOpenState then
          ((none, some (wrapPair cbErrCircuitOpen e)), called)
        else if e = gobreakerErrTooManyRequests then
          ((none, some (wrapPair cbErrCircuitExhausted e)), called)
        else cbAssert result (some e) called
    | none => cbAssert result none called

/-! ## Rate limiter middleware
(middleware/ratelimit/ratelimit.go with golang.org/x/time/rate) -/

/-- How a call to rate.Limiter.Wait(ctx) can end: with a token; with ctx.Err()
because the context was cancelled or its deadline passed (before or during the
wait); or with the would-exceed-deadline error from the reservation
pre-check. -/
inductive WaitOutcome where
  | ok
  | ctxDone (e : GoError)
  | wouldExceed
deriving DecidableEq

/-- The error value Wait returns for each outcome. -/
def limiterWaitErr : WaitOutcome → Option GoError
  | .ok => none
  | .ctxDone e => some e
  | .wouldExceed => some rlWouldExceed

/-- strings.Contains. -/
def goStringContains (s sub : String) : Bool :=
  goContainsAux s.toList sub.toList
where
  goContainsAux : List Char → List Char → Bool
    | l, sub =>
      sub.isPrefixOf l ||
        match l with
        | [] => false
        | _ :: rest => goContainsAux rest sub

/-- RateLimiterMiddleware.Process: on a Wait failure whose message holds
"would exceed context deadline" return the bare ErrTimeout, on any other Wait
failure return that error untouched; otherwise run next.  The Bool records
whether next ran. -/
def RateLimitProcess (w : WaitOutcome) (next : Option Response × Option GoError) :
    (Option Response × Option GoError) × Bool :=
  match limiterWaitErr w with
  | some e =>
      if goStringContains e.message "would exceed context deadline" then
        ((none, some ErrTimeout), false)
      else ((none, some e), false)
  | none => (next, true)

/-! ## Resource rotation (middleware/proxy/proxy.go, the same cursor logic as
middleware/cookie/cookie.go)

The pool snapshot is loaded atomically; the cursor is a uint64 advanced with
Add(1), and the selection index is the previous cursor value reduced modulo
the pool size. -/

/-- One selection step of Process over a non-empty pool: current.Add(1)
returns the incremented cursor modulo 2^64, the code subtracts 1 with uint64
wraparound, and indexes the pool at that value modulo the pool length.  An
empty pool leaves the cursor untouched and selects nothing. -/
def selectRotate {α : Type} [Inhabited α] (pool : List α) (cursor : Nat) : Option α × Nat :=
  if pool.length = 0 then (none, cursor)
  else
    let newCursor := (cursor + 1) % 18446744073709551616
    let current := (newCursor + 18446744073709551615) % 18446744073709551616
    (some (pool.getD (current % pool.length) default), newCursor)

/-- n successive sequential selections, returning the chosen elements in
order together with the final cursor. -/
def rotateRun {α : Type} [Inhabited α] (pool : List α) : Nat → Nat → List (Option α) × Nat
  | cursor, 0 => ([], cursor)
  | cursor, n + 1 =>
      let (a, c1) := selectRotate pool cursor
      let (rest, cf) := rotateRun pool c1 n
      (a :: rest, cf)

/-! ## Deduplication middleware
(middleware/singleflight/singleflight.go with golang.org/x/sync/singleflight)

The in-flight registry of a singleflight.Group is run as a transition system
whose atomic steps are exactly the mutex-protected sections of Do: an
arriving caller either joins the existing in-flight call for its key or
creates one (running the downstream once), and the owning call's completion
removes the entry and hands the one result to every joined caller.
Concurrency is modelled as the set of interleavings of these steps. -/

abbrev SFCaller := Nat

abbrev SFKey := String

/-- Registry state: the in-flight entries with their joined callers (creator
first), the log of downstream executions, and the outcomes delivered. -/
structure SFState where
  inflight : List (SFKey × List SFCaller)
  execs : List (SFKey × SFCaller)
  results : List (SFCaller × (Option Response × Option GoError))
deriving DecidableEq

/-- Look up the in-flight entry of a key (indexing g.m). -/
def lookupEntry (k : SFKey) : List (SFKey × List SFCaller) → Option (List SFCaller)
  | [] => none
  | e :: rest => if e.1 = k then some e.2 else lookupEntry k rest

/-- Remove the entry of a key (delete(g.m, key)). -/
def eraseKey (k : SFKey) : List (SFKey × List SFCaller) → List (SFKey × List SFCaller)
  | [] => []
  | e :: rest => if e.1 = k then eraseKey k rest else e :: eraseKey k rest

/-- A caller joins the in-flight entry of its key (c.dups++ and wg.Wait). -/
def joinEntry (k : SFKey) (c : SFCaller) (infl : List (SFKey × List SFCaller)) :
    List (SFKey × List SFCaller) :=
  infl.map (fun e => if e.1 = k then (e.1, e.2 ++ [c]) else e)

/-- The wrapper Process applies to the result fanned out by Do: a non-nil
error is wrapped in ErrRequestFailed with a nil response; otherwise the typed
*http.Response passes the assertion and is returned with a nil error. -/
def sfProcessResult (r : Option Response × Option GoError) : Option Response × Option GoError :=
  match r.2 with
  | some e => (none, some (wrapPair sfErrRequestFailed e))
  | none => (r.1, none)

/-- Atomic events of the group: a caller's entry into Do (lookup plus join or
create, under the group mutex) and the owner's completion (publication of the
result to all joined callers and removal of the entry). -/
inductive SFEvent where
  | arrive (c : SFCaller) (k : SFKey)
  | complete (k : SFKey) (r : Option Response × Option GoError)

/-- One atomic step of the registry. -/
def sfStep (s : SFState) : SFEvent → SFState
  | .arrive c k =>
      match lookupEntry k s.inflight with
      | some _ => { s with inflight := joinEntry k c s.inflight }
      | none =>
          { inflight := (k, [c]) :: s.inflight
            execs := s.execs ++ [(k, c)]
            results := s.results }
  | .complete k r =>
      match lookupEntry k s.inflight with
      | some members =>
          { inflight := eraseKey k s.inflight
            execs := s.execs
            results := s.results ++ members.map (fun c => (c, sfProcessResult r)) }
      | none => s

/-- Run a schedule of events. -/
def runSF (s : SFState) (evs : List SFEvent) : SFState :=
  evs.foldl sfStep s

/-! ## Go sort.Slice (the pdqsort of the Go standard library, sort/zsortfunc.go)

Chain.sortMiddlewares sorts through sort.Slice, which is not a stable sort:
it runs pdqsort over the slice, falling back to a leftward-swapping insertion
sort only for ranges of at most 12 elements.  The slice is modelled as a
list indexed with getD; data.Swap and data.Less are goSwap and goLess.  The
loops carry explicit fuel; every use gives fuel exceeding the loop bounds. -/

section GoSort

variable {α : Type} [Inhabited α]

/-- Read a slice element. -/
def goGet (l : List α) (i : Nat) : α := l.getD i default

/-- data.Swap(i, j). -/
def goSwap (l : List α) (i j : Nat) : List α :=
  let vi := goGet l i
  let vj := goGet l j
  (l.set i vj).set j vi

variable (lt : α → α → Bool)

/-- data.Less(i, j). -/
def goLess (l : List α) (i j : Nat) : Bool := lt (goGet l i) (goGet l j)

/-- The net effect of the inner loop of insertionSort: the element moves left
past every strictly smaller left neighbour.  The first argument is the prefix
it moves through, in reversed order (rightmost neighbour first): each
neighbour the element passes stays to its right, and the walk stops at the
first neighbour that is not greater. -/
def insRev (x : α) : List α → List α
  | [] => [x]
  | y :: ys => if lt x y then y :: insRev x ys else x :: y :: ys

/-- insertionSort over a whole list: each element in turn is inserted into
the sorted prefix (kept reversed while folding). -/
def insertionSortList (l : List α) : List α :=
  (l.foldl (fun acc z => insRev lt z acc) []).reverse

/-- insertionSort(data, a, b): only the range [a, b) is touched, and its net
effect is the insertion sort of that range. -/
def insertionSortRange (l : List α) (a b : Nat) : List α :=
  l.take a ++ insertionSortList lt ((l.drop a).take (b - a)) ++ l.drop b

/-- siftDown(data, lo, hi, first), recursion on the walk down the heap. -/
def siftDownGo : Nat → List α → Nat → Nat → Nat → List α
  | 0, l, _, _, _ => l
  | fuel + 1, l, root, hi, first =>
      let child := 2 * root + 1
      if child ≥ hi then l
      else
        let child :=
          if child + 1 < hi ∧ goLess lt l (first + child) (first + child + 1) = true then child + 1
          else child
        if goLess lt l (first + root) (first + child) = false then l
        else siftDownGo fuel (goSwap l (first + root) (first + child)) child hi first

/-- The heap-building loop of heapSort, i from (hi-1)/2 down to 0. -/
def hsBuild (hi first : Nat) : Nat → List α → List α
  | 0, l => l
  | k + 1, l => hsBuild hi first k (siftDownGo lt (hi + 2) l k hi first)

/-- The extraction loop of heapSort, i from hi-1 down to 1. -/
def hsExtract (first : Nat) : Nat → List α → List α
  | 0, l => l
  | i + 1, l =>
      let l := goSwap l first (first + (i + 1))
      hsExtract first i (siftDownGo lt (i + 3) l 0 (i + 1) first)

/-- heapSort(data, a, b). -/
def heapSortRange (l : List α) (a b : Nat) : List α :=
  let first := a
  let hi := b - a
  hsExtract lt first (hi - 1) (hsBuild lt hi first ((hi - 1) / 2 + 1) l)

/-- reverseRange(data, a, b). -/
def reverseRangeGo : Nat → List α → Nat → Nat → List α
  | 0, l, _, _ => l
  | fuel + 1, l, i, j => if i < j then reverseRangeGo fuel (goSwap l i j) (i + 1) (j - 1) else l

/-- One step of the xorshift generator used by breakPatterns. -/
def xorshiftNext (r : Nat) : Nat :=
  let r := (r ^^^ (r <<< 13)) % 18446744073709551616
  let r := r ^^^ (r >>> 7)
  (r ^^^ (r <<< 17)) % 18446744073709551616

/-- bits.Len. -/
def goBitsLen (n : Nat) : Nat := if n = 0 then 0 else Nat.log2 n + 1

/-- nextPowerOfTwo of the sort package. -/
def nextPowerOfTwo (length : Nat) : Nat := 1 <<< goBitsLen length

/-- breakPatterns(data, a, b): three pseudo-random swaps around the middle,
seeding xorshift with the range length. -/
def breakPatternsGo (l : List α) (a b : Nat) : List α :=
  let length := b - a
  if length ≥ 8 then
    let modulus := nextPowerOfTwo length
    let idx := a + (length / 4) * 2 - 1
    let step := fun (st : List α × Nat) (i : Nat) =>
      let (l, random) := st
      let random := xorshiftNext random
      let other := random &&& (modulus - 1)
      let other := if other ≥ length then other - length else other
      (goSwap l (idx - 1 + i) (a + other), random)
    ([0, 1, 2].foldl step (l, length)).1
  else l

/-- Hints returned by choosePivot. -/
inductive Hint where
  | increasing
  | decreasing
  | unknown
deriving DecidableEq

/-- order2(data, a, b, swaps). -/
def order2Go (l : List α) (a b swaps : Nat) : Nat × Nat × Nat :=
  if goLess lt l b a = true then (b, a, swaps + 1) else (a, b, swaps)

/-- median(data, a, b, c, swaps): the index of the median of three. -/
def medianOf3 (l : List α) (a b c swaps : Nat) : Nat × Nat :=
  let (a, b, swaps) := order2Go lt l a b swaps
  let (b, _, swaps) := order2Go lt l b c swaps
  let (_, b, swaps) := order2Go lt l a b swaps
  (b, swaps)

/-- medianAdjacent(data, a, swaps). -/
def medianAdjacentGo (l : List α) (a swaps : Nat) : Nat × Nat :=
  medianOf3 lt l (a - 1) a (a + 1) swaps

/-- choosePivot(data, a, b): median of three (ninther for 50 and longer),
counting comparisons that were out of order. -/
def choosePivotGo (l : List α) (a b : Nat) : Nat × Hint :=
  let len := b - a
  let i := a + len / 4 * 1
  let j := a + len / 4 * 2
  let k := a + len / 4 * 3
  let (j, swaps) :=
    if len ≥ 8 then
      if len ≥ 50 then
        let (i, s) := medianAdjacentGo lt l i 0
        let (j, s) := medianAdjacentGo lt l j s
        let (k, s) := medianAdjacentGo lt l k s
        let (j, s) := medianOf3 lt l i j k s
        (j, s)
      else medianOf3 lt l i j k 0
    else (j, 0)
  match swaps with
  | 0 => (j, Hint.increasing)
  | 12 => (j, Hint.decreasing)
  | _ => (j, Hint.unknown)

/-- The i-advancing scan of partition: while i <= j and data.Less(i, a). -/
def advanceI (l : List α) (aIdx : Nat) : Nat → Nat → Nat → Nat
  | 0, i, _ => i
  | fuel + 1, i, j =>
      if i ≤ j ∧ goLess lt l i aIdx = true then advanceI l aIdx fuel (i + 1) j else i

/-- The j-retreating scan of partition: while i <= j and not data.Less(j, a). -/
def retreatJ (l : List α) (aIdx : Nat) : Nat → Nat → Nat → Nat
  | 0, _, j => j
  | fuel + 1, i, j =>
      if i ≤ j ∧ goLess lt l j aIdx = false then retreatJ l aIdx fuel i (j - 1) else j

/-- The main swap loop of partition. -/
def partitionMain (aIdx b : Nat) : Nat → List α → Nat → Nat → List α × Nat
  | 0, l, _, j => (l, j)
  | fuel + 1, l, i, j =>
      let i := advanceI lt l aIdx (b + 2) i j
      let j := retreatJ lt l aIdx (b + 2) i j
      if i > j then (l, j)
      else partitionMain aIdx b fuel (goSwap l i j) (i + 1) (j - 1)

/-- partition(data, a, b, pivot): Hoare partition against the pivot moved to
position a; returns the slice, the final pivot position, and whether the
range was already partitioned. -/
def partitionGo (l : List α) (a b pivot : Nat) : List α × Nat × Bool :=
  let l := goSwap l a pivot
  let i := a + 1
  let j := b - 1
  let i := advanceI lt l a (b + 2) i j
  let j := retreatJ lt l a (b + 2) i j
  if i > j then (goSwap l j a, j, true)
  else
    let l := goSwap l i j
    let (l, j) := partitionMain lt a b (b + 2) l (i + 1) (j - 1)
    (goSwap l j a, j, false)

/-- The i-advancing scan of partitionEqual: while i <= j and not
data.Less(a, i). -/
def advanceIEq (l : List α) (aIdx : Nat) : Nat → Nat → Nat → Nat
  | 0, i, _ => i
  | fuel + 1, i, j =>
      if i ≤ j ∧ goLess lt l aIdx i = false then advanceIEq l aIdx fuel (i + 1) j else i

/-- The j-retreating scan of partitionEqual: while i <= j and
data.Less(a, j). -/
def retreatJEq (l : List α) (aIdx : Nat) : Nat → Nat → Nat → Nat
  | 0, _, j => j
  | fuel + 1, i, j =>
      if i ≤ j ∧ goLess lt l aIdx j = true then retreatJEq l aIdx fuel i (j - 1) else j

/-- The swap loop of partitionEqual, returning i at the break. -/
def partitionEqualMain (aIdx b : Nat) : Nat → List α → Nat → Nat → List α × Nat
  | 0, l, i, _ => (l, i)
  | fuel + 1, l, i, j =>
      let i := advanceIEq lt l aIdx (b + 2) i j
      let j := retreatJEq lt l aIdx (b + 2) i j
      if i > j then (l, i)
      else partitionEqualMain aIdx b fuel (goSwap l i j) (i + 1) (j - 1)

/-- partitionEqual(data, a, b, pivot): skips over elements equal to the
pivot, returning the first index of the greater suffix. -/
def partitionEqualGo (l : List α) (a b pivot : Nat) : List α × Nat :=
  let l := goSwap l a pivot
  partitionEqualMain lt a b (b + 2) l (a + 1) (b - 1)

/-- The sortedness scan of partialInsertionSort: while i < b and not
data.Less(i, i-1). -/
def scanSorted (l : List α) (b : Nat) : Nat → Nat → Nat
  | 0, i => i
  | fuel + 1, i =>
      if i < b ∧ goLess lt l i (i - 1) = false then scanSorted l b fuel (i + 1) else i

/-- The left-shifting loop of partialInsertionSort, j downward from i-1. -/
def shiftLeftGo : Nat → List α → Nat → List α
  | 0, l, _ => l
  | fuel + 1, l, j =>
      if 1 ≤ j ∧ goLess lt l j (j - 1) = true then shiftLeftGo fuel (goSwap l j (j - 1)) (j - 1)
      else l

/-- The right-shifting loop of partialInsertionSort, j upward from i+1. -/
def shiftRightGo (b : Nat) : Nat → List α → Nat → List α
  | 0, l, _ => l
  | fuel + 1, l, j =>
      if j < b ∧ goLess lt l j (j - 1) = true then shiftRightGo b fuel (goSwap l j (j - 1)) (j + 1)
      else l

/-- The bounded outer loop of partialInsertionSort (maxSteps = 5). -/
def partialInsertionSortAux (a b : Nat) : Nat → List α → Nat → List α × Bool
  | 0, l, _ => (l, false)
  | steps + 1, l, i =>
      let i := scanSorted lt l b (b + 2) i
      if i = b then (l, true)
      else if b - a < 50 then (l, false)
      else
        let l := goSwap l i (i - 1)
        let l := if i - a ≥ 2 then shiftLeftGo lt (b + 2) l (i - 1) else l
        let l := if b - i ≥ 2 then shiftRightGo lt b (b + 2) l (i + 1) else l
        partialInsertionSortAux a b steps l i

/-- partialInsertionSort(data, a, b): at most five out-of-order elements are
moved into place; reports whether the range ended fully sorted. -/
def partialInsertionSortGo (l : List α) (a b : Nat) : List α × Bool :=
  partialInsertionSortAux lt a b 5 l (a + 1)

/-- pdqsort(data, a, b, limit).  The fuel bounds the loop iterations and the
recursion; wasBalanced and wasPartitioned are the loop-carried flags, reset
to true on entry to a recursive call exactly as a fresh Go invocation resets
its locals. -/
def pdqsortLoop : Nat → List α → Nat → Nat → Nat → Bool → Bool → List α
  | fuel, l, a, b, limit, wasBalanced, wasPartitioned =>
    if b - a ≤ 12 then insertionSortRange lt l a b
    else
      match fuel with
      | 0 => l
      | fuel + 1 =>
        if limit = 0 then heapSortRange lt l a b
        else
          let (l, limit) :=
            if wasBalanced = false then (breakPatternsGo l a b, limit - 1) else (l, limit)
          let (pivot, hint) := choosePivotGo lt l a b
          let (l, pivot, hint) :=
            if hint = Hint.decreasing then
              (reverseRangeGo (b + 2) l a (b - 1), (b - 1) - (pivot - a), Hint.increasing)
            else (l, pivot, hint)
          match (if wasBalanced = true ∧ wasPartitioned = true ∧ hint = Hint.increasing then
                  partialInsertionSortGo lt l a b
                 else (l, false)) with
          | (l, true) => l
          | (l, false) =>
            if 0 < a ∧ goLess lt l (a - 1) pivot = false then
              let (l, mid) := partitionEqualGo lt l a b pivot
              pdqsortLoop fuel l mid b limit wasBalanced wasPartitioned
            else
              let (l, mid, alreadyPartitioned) := partitionGo lt l a b pivot
              let wasPartitioned := alreadyPartitioned
              let leftLen := mid - a
              let rightLen := b - mid
              let wasBalanced := decide (min leftLen rightLen ≥ (b - a) / 8)
              if leftLen < rightLen then
                let l := pdqsortLoop fuel l a mid limit true true
                pdqsortLoop fuel l (mid + 1) b limit wasBalanced wasPartitioned
              else
                let l := pdqsortLoop fuel l (mid + 1) b limit true true
                pdqsortLoop fuel l a mid limit wasBalanced wasPartitioned

/-- sort.Slice: pdqsort over the whole slice with limit = bits.Len(length). -/
def goSortSlice (l : List α) : List α :=
  pdqsortLoop lt ((l.length + 8) * (l.length + 8)) l 0 l.length (goBitsLen l.length) true true

end GoSort

/-! ## The middleware chain (pkg/client/middleware/middleware_chain.go) -/

/-- A middleware value: its runtime type (reflect.TypeOf) and the concrete
instance, so that replacement by type identity is observable. -/
structure GoMiddleware where
  typeId : Nat
  instId : Nat
deriving DecidableEq, Inhabited

/-- PrioritizedMiddleware. -/
structure PM where
  mw : GoMiddleware
  priority : Int
deriving DecidableEq, Inhabited

/-- The comparison closure of sortMiddlewares:
middlewares[i].Priority > middlewares[j].Priority. -/
def pmLess (x y : PM) : Bool := decide (y.priority < x.priority)

/-- Chain.sortMiddlewares: sort.Slice by descending priority. -/
def sortMiddlewares (ms : List PM) : List PM := goSortSlice pmLess ms

/-- Chain.addOrReplace: the first entry whose middleware has the same
runtime type is replaced in place with the new priority; with no such entry
the new middleware is appended. -/
def addOrReplace : List PM → Int → GoMiddleware → List PM
  | [], p, m => [⟨m, p⟩]
  | pm :: rest, p, m =>
      if pm.mw.typeId = m.typeId then ⟨m, p⟩ :: rest
      else pm :: addOrReplace rest p m

/-- Chain.Then: addOrReplace each given middleware, then re-sort. -/
def Then (ms : List PM) (priority : Int) (mws : List GoMiddleware) : List PM :=
  sortMiddlewares (mws.foldl (fun acc m => addOrReplace acc priority m) ms)

/-- A sequence of Then calls applied to a chain. -/
def ThenSeq (ms : List PM) (calls : List (Int × List GoMiddleware)) : List PM :=
  calls.foldl (fun acc c => Then acc c.1 c.2) ms

/-! ## XXH64 (github.com/cespare/xxhash, seed 0)

The 64-bit variant of xxHash over a byte sequence, on Nat with explicit
reduction modulo 2^64. -/

/-- Reduction modulo 2^64. -/
def m64 (n : Nat) : Nat := n % 18446744073709551616

def xxPrime1 : Nat := 11400714785074694791
def xxPrime2 : Nat := 14029467366897019727
def xxPrime3 : Nat := 1609587929392839161
def xxPrime4 : Nat := 9650029242287828579
def xxPrime5 : Nat := 2870177450012600261

/-- 64-bit left rotation. -/
def rotl64 (x r : Nat) : Nat := m64 (x <<< r) ||| (x >>> (64 - r))

/-- The round function: acc += lane * prime2; acc = rol31(acc);
acc *= prime1. -/
def xxRound (acc lane : Nat) : Nat := m64 (rotl64 (m64 (acc + xxPrime2 * lane)) 31 * xxPrime1)

/-- The merge round: h ^= round(0, v); h = h * prime1 + prime4. -/
def xxMergeRound (h v : Nat) : Nat := m64 ((h ^^^ xxRound 0 v) * xxPrime1 + xxPrime4)

/-- A little-endian 64-bit word from the first eight bytes. -/
def u64le (bs : List Nat) : Nat := (bs.take 8).foldr (fun b acc => b + 256 * acc) 0

/-- A little-endian 32-bit word from the first four bytes. -/
def u32le (bs : List Nat) : Nat := (bs.take 4).foldr (fun b acc => b + 256 * acc) 0

/-- The 32-byte stripe loop of XXH64. -/
def xxBlocks : Nat → Nat × Nat × Nat × Nat → List Nat → (Nat × Nat × Nat × Nat) × List Nat
  | 0, vs, bs => (vs, bs)
  | fuel + 1, (v1, v2, v3, v4), bs =>
      if bs.length ≥ 32 then
        let v1 := xxRound v1 (u64le bs)
        let v2 := xxRound v2 (u64le (bs.drop 8))
        let v3 := xxRound v3 (u64le (bs.drop 16))
        let v4 := xxRound v4 (u64le (bs.drop 24))
        xxBlocks fuel (v1, v2, v3, v4) (bs.drop 32)
      else ((v1, v2, v3, v4), bs)

/-- The 8-byte tail loop of XXH64. -/
def xxTail8 : Nat → Nat → List Nat → Nat × List Nat
  | 0, h, bs => (h, bs)
  | fuel + 1, h, bs =>
      if bs.length ≥ 8 then
        let k := xxRound 0 (u64le bs)
        xxTail8 fuel (m64 (rotl64 (h ^^^ k) 27 * xxPrime1 + xxPrime4)) (bs.drop 8)
      else (h, bs)

/-- XXH64 with seed 0 over a byte sequence. -/
def xxh64 (input : List Nat) : Nat :=
  let n := input.length
  let state :=
    if n ≥ 32 then
      let v1 := m64 (xxPrime1 + xxPrime2)
      let v2 := xxPrime2
      let v3 := 0
      let v4 := m64 (18446744073709551616 - xxPrime1)
      let (vs, rest) := xxBlocks (n / 32 + 1) (v1, v2, v3, v4) input
      match vs with
      | (v1, v2, v3, v4) =>
        let h := m64 (rotl64 v1 1 + rotl64 v2 7 + rotl64 v3 12 + rotl64 v4 18)
        let h := xxMergeRound h v1
        let h := xxMergeRound h v2
        let h := xxMergeRound h v3
        let h := xxMergeRound h v4
        (h, rest)
    else (xxPrime5, input)
  match state with
  | (h, rest) =>
    let h := m64 (h + n)
    match xxTail8 (n / 8 + 1) h rest with
    | (h, rest) =>
      let (h, rest) :=
        if rest.length ≥ 4 then
          (m64 (rotl64 (h ^^^ m64 (u32le rest * xxPrime1)) 23 * xxPrime2 + xxPrime3), rest.drop 4)
        else (h, rest)
      let h := rest.foldl (fun h b => m64 (rotl64 (h ^^^ m64 (b * xxPrime5)) 11 * xxPrime1)) h
      let h := h ^^^ (h >>> 33)
      let h := m64 (h * xxPrime2)
      let h := h ^^^ (h >>> 29)
      let h := m64 (h * xxPrime3)
      h ^^^ (h >>> 32)

/-! ## Request fingerprints (middleware/singleflight/singleflight.go) -/

/-- The request data generateRequestKey reads.  Go ranges over the header
map in an order the language leaves unspecified (and deliberately varies);
the headers field lists the header entries in the iteration order of one
particular range. -/
structure GoRequest where
  method : String
  url : String
  headers : List (String × List String)
  body : Option (List Nat)
deriving DecidableEq

/-- fmt.Sprint of a []string value. -/
def fmtSprintStrings (vs : List String) : String :=
  "[" ++ String.intercalate " " vs ++ "]"

/-- The UTF-8 encoding of one code point. -/
def utf8Bytes (c : Char) : List Nat :=
  let n := c.toNat
  if n < 128 then [n]
  else if n < 2048 then [192 + (n >>> 6), 128 + (n &&& 63)]
  else if n < 65536 then [224 + (n >>> 12), 128 + ((n >>> 6) &&& 63), 128 + (n &&& 63)]
  else [240 + (n >>> 18), 128 + ((n >>> 12) &&& 63), 128 + ((n >>> 6) &&& 63), 128 + (n &&& 63)]

/-- The UTF-8 bytes of a string, as io.WriteString feeds them to the
hasher. -/
def strBytes (s : String) : List Nat := s.toList.foldr (fun c acc => utf8Bytes c ++ acc) []

/-- The byte sequence generateRequestKey writes into the hasher: method and
URL, then each header in iteration order apart from Authorization as
key+fmt.Sprint(values), then the body bytes. -/
def keyBytes (req : GoRequest) : List Nat :=
  strBytes (req.method ++ req.url)
    ++ req.headers.foldl
        (fun acc kv =>
          acc ++ (if kv.1 = "Authorization" then [] else strBytes (kv.1 ++ fmtSprintStrings kv.2)))
        []
    ++ (match req.body with
        | some b => b
        | none => [])

/-- strconv.FormatUint(n, 16): lowercase hexadecimal without padding. -/
def formatUintHex (n : Nat) : String := String.mk (Nat.toDigits 16 n)

/-- SingleFlightMiddleware.generateRequestKey: the hex-formatted XXH64 digest
of the written bytes. -/
def generateRequestKey (req : GoRequest) : String := formatUintHex (xxh64 (keyBytes req))

/-!
# Theorems

Shared lemmas come first, then one theorem (plus counterexample and witness
where applicable) per claim.
-/

/-! ### The wrap-chain walk agrees with the declarative chain membership -/

mutual
theorem errIs_iff (t : GoError) : ∀ e : GoError, errIs e t = true ↔ InChain t e
  | .sentinel i m => by
      simp only [errIs, Bool.or_false]
      constructor
      · intro h
        have heq := (GoError.beq_iff (GoError.sentinel i m) t).mp h
        subst heq
        exact InChain.here
      · intro h
        cases h
        exact (GoError.beq_iff _ _).mpr rfl
  | .wrap m cs => by
      simp only [errIs, Bool.or_eq_true]
      constructor
      · intro h
        cases h with
        | inl h =>
            have heq := (GoError.beq_iff (GoError.wrap m cs) t).mp h
            subst heq
            exact InChain.here
        | inr h =>
            obtain ⟨c, hc, hin⟩ := (errIsAny_iff t cs).mp h
            exact InChain.via m cs c hc hin
      · intro h
        cases h with
        | here => exact Or.inl ((GoError.beq_iff _ _).mpr rfl)
        | via m cs c hc hin => exact Or.inr ((errIsAny_iff t cs).mpr ⟨c, hc, hin⟩)

theorem errIsAny_iff (t : GoError) : ∀ cs : List GoError,
    errIsAny cs t = true ↔ ∃ c ∈ cs, InChain t c
  | [] => by simp [errIsAny]
  | c :: cs => by
      simp only [errIsAny, Bool.or_eq_true]
      rw [errIs_iff t c, errIsAny_iff t cs]
      constructor
      · rintro (h | ⟨c', hc', hin⟩)
        · exact ⟨c, List.mem_cons_self c cs, h⟩
        · exact ⟨c', List.mem_cons_of_mem c hc', hin⟩
      · rintro ⟨c', hc', hin⟩
        rcases List.mem_cons.mp hc' with rfl | hc'
        · exact Or.inl hin
        · exact Or.inr ⟨c', hc', hin⟩
end

/-! ### C3: temporariness classification -/

/-- C3 counterexample: an error wrapping both ErrPermanent and ErrNetwork is
classified temporary by IsTemporary, although the claim says an error marked
both permanent and network must not be temporary — the code never consults
ErrPermanent. -/
theorem isTemporary_ignores_permanent_cx :
    IsTemporary (GoError.wrap "dual" [ErrPermanent, ErrNetwork]) = true
    ∧ errIs (GoError.wrap "dual" [ErrPermanent, ErrNetwork]) ErrPermanent = true
    ∧ errIs (GoError.wrap "dual" [ErrPermanent, ErrNetwork]) ErrNetwork = true := by
  decide

/-- C3 amended: IsTemporary(err) returns true if and only if the wrap chain
of err holds the network, timeout, bad-upstream-status or explicitly
temporary kind; being marked permanent neither overrides nor influences
the classification. -/
theorem isTemporary_chain_characterization (e : GoError) :
    IsTemporary e = true ↔
      (InChain ErrNetwork e ∨ InChain ErrTimeout e ∨ InChain ErrBadStatus e ∨
        InChain ErrTemporary e) := by
  simp only [IsTemporary, Bool.or_eq_true, errIs_iff]
  tauto

/-! ### C10: classification of terminal transport failures -/

/-- C10: every failure of the terminal transport call leaves performRequest
as a nil response with an error wrapping ErrTimeout when the cause chain
holds context.DeadlineExceeded and ErrNetwork otherwise; the wrapped error
keeps the original cause in its chain and always satisfies IsTemporary. -/
theorem performRequest_classifies (err : GoError) :
    ∃ e, performRequest (.fail err) = (none, some e)
      ∧ errIs e (if errIs err ctxDeadlineExceeded then ErrTimeout else ErrNetwork) = true
      ∧ InChain err e
      ∧ IsTemporary e = true := by
  by_cases h : errIs err ctxDeadlineExceeded = true
  · refine ⟨wrapPair ErrTimeout err, ?_, ?_, ?_, ?_⟩
    · simp [performRequest, h]
    · rw [h]
      exact (errIs_iff _ _).mpr (InChain.via _ _ ErrTimeout (by simp [wrapPair]) InChain.here)
    · exact InChain.via _ _ err (by simp [wrapPair]) InChain.here
    · have ht : errIs (wrapPair ErrTimeout err) ErrTimeout = true :=
        (errIs_iff _ _).mpr (InChain.via _ _ ErrTimeout (by simp [wrapPair]) InChain.here)
      simp [IsTemporary, ht]
  · refine ⟨wrapPair ErrNetwork err, ?_, ?_, ?_, ?_⟩
    · simp [performRequest, h]
    · rw [Bool.not_eq_true] at h
      rw [h]
      exact (errIs_iff _ _).mpr (InChain.via _ _ ErrNetwork (by simp [wrapPair]) InChain.here)
    · exact InChain.via _ _ err (by simp [wrapPair]) InChain.here
    · have hn : errIs (wrapPair ErrNetwork err) ErrNetwork = true :=
        (errIs_iff _ _).mpr (InChain.via _ _ ErrNetwork (by simp [wrapPair]) InChain.here)
      simp [IsTemporary, hn]

/-! ### Retry loop lemmas -/

/-- When every attempt is classified retryable, the loop performs one call
per unit of fuel plus the final one, ending with the last failure. -/
theorem retryAux_transient (next : NextFn) (M : Nat) (errOf : Nat → GoError)
    (h : ∀ n, handleRetryError (next n).1 (next n).2 = .transient (errOf n)) (hM : M ≠ 0) :
    ∀ fuel attempt, retryAux next M attempt fuel
      = (attempt + fuel + 1, ((next (attempt + fuel)).1, some (errOf (attempt + fuel)))) := by
  intro fuel
  induction fuel with
  | zero =>
      intro attempt
      rw [retryAux.eq_def]
      rw [h attempt]
      simp [hM]
  | succ fuel ih =>
      intro attempt
      rw [retryAux.eq_def]
      rw [h attempt]
      simp only [hM, if_false, ih (attempt + 1)]
      have harr : attempt + 1 + fuel = attempt + (fuel + 1) := by omega
      rw [harr]

/-- The loop with an always-retryable downstream: M + 1 calls, last failure
surfaced bare next to the last response. -/
theorem RetryProcess_transient (M : Nat) (next : NextFn) (errOf : Nat → GoError)
    (h : ∀ n, handleRetryError (next n).1 (next n).2 = .transient (errOf n)) :
    RetryProcess M next = (M + 1, ((next M).1, some (errOf M))) := by
  unfold RetryProcess
  rcases Nat.eq_zero_or_pos M with hM | hM
  · subst hM
    rw [retryAux.eq_def]
    rw [h 0]
    simp
  · have := retryAux_transient next M errOf h (Nat.pos_iff_ne_zero.mp hM) M 0
    simpa using this

/-- A first attempt classified done stops after one call with no error. -/
theorem RetryProcess_done (M : Nat) (next : NextFn)
    (h : handleRetryError (next 0).1 (next 0).2 = .done) :
    RetryProcess M next = (1, ((next 0).1, none)) := by
  unfold RetryProcess
  rw [retryAux.eq_def]
  rw [h]

/-- A first attempt classified permanent stops after one call, surfacing the
error backoff.Permanent carried. -/
theorem RetryProcess_permanent (M : Nat) (next : NextFn) (e : GoError)
    (h : handleRetryError (next 0).1 (next 0).2 = .permanentStop e) :
    RetryProcess M next = (1, ((next 0).1, some e)) := by
  unfold RetryProcess
  rw [retryAux.eq_def]
  rw [h]

/-! ### C2: retry attempt counts and the final error -/

/-- C2 counterexample: with maxAttempts 1 and a downstream that always fails
with the temporary ErrNetwork, Process makes 2 calls as the claim predicts,
but the final error is the bare last failure: it does not satisfy the
retry-exhausted kind (ErrRetryFailed), which the claim requires. -/
theorem retry_no_exhausted_wrap_cx :
    RetryProcess 1 (fun _ => (none, some ErrNetwork)) = (2, (none, some ErrNetwork))
    ∧ errIs ErrNetwork ErrRetryFailed = false := by
  decide

/-- C2 amended: with maxAttempts = M and every call returning a temporary
failure, Process invokes next exactly M+1 times and returns the last failure
itself as the final error (no retry-exhausted wrapping occurs in this
version); a first failure classified permanent stops after exactly one call
with that error surfaced. -/
theorem retry_attempt_counts :
    (∀ (M : Nat) (next : NextFn) (errOf : Nat → GoError),
        (∀ n, next n = (none, some (errOf n))) →
        (∀ n, IsTemporary (errOf n) = true) →
        (RetryProcess M next).1 = M + 1 ∧ (RetryProcess M next).2 = (none, some (errOf M)))
    ∧ (∀ (M : Nat) (next : NextFn) (e : GoError),
        next 0 = (none, some e) →
        IsTemporary e = false →
        (RetryProcess M next).1 = 1 ∧ (RetryProcess M next).2 = (none, some e)) := by
  constructor
  · intro M next errOf hnext htemp
    have h : ∀ n, handleRetryError (next n).1 (next n).2 = .transient (errOf n) := by
      intro n
      rw [hnext n]
      simp [handleRetryError, classifyErr, htemp n]
    have := RetryProcess_transient M next errOf h
    rw [this, hnext M]
    exact ⟨rfl, rfl⟩
  · intro M next e hnext hperm
    have h : handleRetryError (next 0).1 (next 0).2 = .permanentStop e := by
      rw [hnext]
      simp [handleRetryError, classifyErr, hperm]
    have := RetryProcess_permanent M next e h
    rw [this, hnext]
    exact ⟨rfl, rfl⟩

/-- Witness for C2: both parts applied at concrete inputs. -/
theorem retry_attempt_counts_witness :
    ((RetryProcess 2 (fun _ => (none, some ErrNetwork))).1 = 3
      ∧ (RetryProcess 2 (fun _ => (none, some ErrNetwork))).2 = (none, some ErrNetwork))
    ∧ ((RetryProcess 5 (fun _ => (none, some ErrPermanent))).1 = 1
      ∧ (RetryProcess 5 (fun _ => (none, some ErrPermanent))).2 = (none, some ErrPermanent)) :=
  ⟨retry_attempt_counts.1 2 (fun _ => (none, some ErrNetwork)) (fun _ => ErrNetwork)
      (fun _ => rfl) (fun _ => show IsTemporary ErrNetwork = true by decide),
   retry_attempt_counts.2 5 (fun _ => (none, some ErrPermanent)) ErrPermanent rfl (by decide)⟩

/-! ### C5: the circuit breaker forwards or rejects -/

/-- C5: unless the downstream pair itself carries one of the two raw
gobreaker sentinels (which only the breaker produces), Process either
forwards the downstream result unchanged after calling next, or — without
calling next — returns an error wrapping the local circuit-open kind when
the breaker rejects in Open, or the local circuit-exhausted kind when the
Half-Open probe budget is exceeded; no other error ever replaces a
downstream result. -/
theorem circuitbreaker_forward_or_reject (d : BreakerDecision)
    (next : Option Response × Option GoError)
    (h1 : next.2 ≠ some gobreakerErrOpenState)
    (h2 : next.2 ≠ some gobreakerErrTooManyRequests) :
    (d = .proceed ∧ CircuitBreakerProcess d next = (next, true))
    ∨ (d = .rejectOpen
        ∧ CircuitBreakerProcess d next
            = ((none, some (wrapPair cbErrCircuitOpen gobreakerErrOpenState)), false)
        ∧ errIs (wrapPair cbErrCircuitOpen gobreakerErrOpenState) cbErrCircuitOpen = true)
    ∨ (d = .rejectTooMany
        ∧ CircuitBreakerProcess d next
            = ((none, some (wrapPair cbErrCircuitExhausted gobreakerErrTooManyRequests)), false)
        ∧ errIs (wrapPair cbErrCircuitExhausted gobreakerErrTooManyRequests) cbErrCircuitExhausted
            = true) := by
  cases d with
  | proceed =>
      left
      refine ⟨rfl, ?_⟩
      cases hnd : next.2 with
      | none =>
          simp only [CircuitBreakerProcess, gobreakerExecute, hnd, cbAssert]
          rw [← hnd]
      | some e =>
          rw [hnd] at h1 h2
          have he1 : ¬ e = gobreakerErrOpenState := fun h => h1 (by rw [h])
          have he2 : ¬ e = gobreakerErrTooManyRequests := fun h => h2 (by rw [h])
          simp only [CircuitBreakerProcess, gobreakerExecute, hnd, he1, he2, if_false, cbAssert]
          rw [← hnd]
  | rejectOpen =>
      right; left
      exact ⟨rfl, rfl, by decide⟩
  | rejectTooMany =>
      right; right
      exact ⟨rfl, rfl, by decide⟩

/-- Witness for C5: a rejection in the Open state, with a concrete
downstream pair that the breaker never consults. -/
theorem circuitbreaker_forward_or_reject_witness :
    ((some (Response.mk 200), (none : Option GoError)).2 ≠ some gobreakerErrOpenState)
    ∧ ((BreakerDecision.rejectOpen = .proceed
        ∧ CircuitBreakerProcess .rejectOpen (some (Response.mk 200), none)
            = ((some (Response.mk 200), none), true))
      ∨ (BreakerDecision.rejectOpen = .rejectOpen
        ∧ CircuitBreakerProcess .rejectOpen (some (Response.mk 200), none)
            = ((none, some (wrapPair cbErrCircuitOpen gobreakerErrOpenState)), false)
        ∧ errIs (wrapPair cbErrCircuitOpen gobreakerErrOpenState) cbErrCircuitOpen = true)
      ∨ (BreakerDecision.rejectOpen = .rejectTooMany
        ∧ CircuitBreakerProcess .rejectOpen (some (Response.mk 200), none)
            = ((none, some (wrapPair cbErrCircuitExhausted gobreakerErrTooManyRequests)), false)
        ∧ errIs (wrapPair cbErrCircuitExhausted gobreakerErrTooManyRequests) cbErrCircuitExhausted
            = true)) :=
  ⟨by decide,
   circuitbreaker_forward_or_reject .rejectOpen (some (Response.mk 200), none)
     (by decide) (by decide)⟩

/-! ### C7: rate limiter wait failures -/

/-- C7 counterexample: a token wait ended by context cancellation returns
the raw context.Canceled error, which is neither of the timeout kind nor
temporary — the claim says every such failure is timeout-classified. -/
theorem ratelimit_cancellation_cx :
    RateLimitProcess (.ctxDone ctxCanceled) (none, none) = ((none, some ctxCanceled), false)
    ∧ IsTemporary ctxCanceled = false
    ∧ errIs ctxCanceled ErrTimeout = false := by
  decide

/-- C7 amended: only the limiter's would-exceed-deadline pre-check failure
is converted to the bare ErrTimeout (which is temporary); a wait ended by
context cancellation or by deadline expiry during the wait surfaces the raw
context error unclassified, and next is not called on any wait failure. -/
theorem ratelimit_wait_classification (next : Option Response × Option GoError) :
    RateLimitProcess .wouldExceed next = ((none, some ErrTimeout), false)
    ∧ RateLimitProcess (.ctxDone ctxCanceled) next = ((none, some ctxCanceled), false)
    ∧ RateLimitProcess (.ctxDone ctxDeadlineExceeded) next
        = ((none, some ctxDeadlineExceeded), false)
    ∧ IsTemporary ErrTimeout = true
    ∧ RateLimitProcess .ok next = (next, true) :=
  ⟨rfl, rfl, rfl, by decide, rfl⟩

/-! ### Singleflight registry lemmas -/

/-- Joining a key rewrites only that entry, appending the caller. -/
theorem lookupEntry_joinEntry_same (k : SFKey) (c : SFCaller)
    (infl : List (SFKey × List SFCaller)) :
    lookupEntry k (joinEntry k c infl) = (lookupEntry k infl).map (fun ms => ms ++ [c]) := by
  induction infl with
  | nil => rfl
  | cons e rest ih =>
      obtain ⟨k1, ms1⟩ := e
      by_cases he : k1 = k
      · subst he
        simp [joinEntry, lookupEntry]
      · simp only [joinEntry, List.map_cons, if_neg he]
        simp only [lookupEntry, if_neg he]
        simpa [joinEntry] using ih

/-- Joining a key leaves the entries of every other key untouched. -/
theorem lookupEntry_joinEntry_other (k k2 : SFKey) (c : SFCaller)
    (infl : List (SFKey × List SFCaller)) (hne : k2 ≠ k) :
    lookupEntry k2 (joinEntry k c infl) = lookupEntry k2 infl := by
  induction infl with
  | nil => rfl
  | cons e rest ih =>
      obtain ⟨k1, ms1⟩ := e
      by_cases he : k1 = k
      · subst he
        have hne2 : ¬ k1 = k2 := fun h => hne (h.symm)
        simpa [joinEntry, lookupEntry, hne2] using ih
      · by_cases he2 : k1 = k2
        · simp [joinEntry, lookupEntry, he, he2, hne]
        · simpa [joinEntry, lookupEntry, he, he2] using ih

/-- Removing a key's entry removes it from lookup. -/
theorem lookupEntry_eraseKey_same (k : SFKey) (infl : List (SFKey × List SFCaller)) :
    lookupEntry k (eraseKey k infl) = none := by
  induction infl with
  | nil => rfl
  | cons e rest ih =>
      obtain ⟨k1, ms1⟩ := e
      by_cases he : k1 = k
      · simpa [eraseKey, if_pos he] using ih
      · simp only [eraseKey, if_neg he]
        simp only [lookupEntry, if_neg he]
        exact ih

/-- Removing a key's entry leaves every other key's entry untouched. -/
theorem lookupEntry_eraseKey_other (k k2 : SFKey) (infl : List (SFKey × List SFCaller))
    (hne : k2 ≠ k) :
    lookupEntry k2 (eraseKey k infl) = lookupEntry k2 infl := by
  induction infl with
  | nil => rfl
  | cons e rest ih =>
      obtain ⟨k1, ms1⟩ := e
      by_cases he : k1 = k
      · subst he
        have hne2 : ¬ k1 = k2 := fun h => hne (h.symm)
        simp only [eraseKey, if_pos rfl]
        simp only [lookupEntry, if_neg hne2]
        exact ih
      · simp only [eraseKey, if_neg he]
        by_cases he2 : k1 = k2
        · simp only [lookupEntry, if_pos he2]
        · simp only [lookupEntry, if_neg he2]
          exact ih

/-- Running the arrival events of callers cs for a key whose entry is in
flight joins them all in order, leaving executions, results and other keys
untouched. -/
theorem runSF_arrivals (k : SFKey) : ∀ (cs : List SFCaller) (s : SFState)
    (ms : List SFCaller), lookupEntry k s.inflight = some ms →
    ∃ infl2,
      runSF s (cs.map (SFEvent.arrive · k)) = SFState.mk infl2 s.execs s.results
      ∧ lookupEntry k infl2 = some (ms ++ cs)
      ∧ (∀ k2, k2 ≠ k → lookupEntry k2 infl2 = lookupEntry k2 s.inflight)
  | [], s, ms, h => ⟨s.inflight, rfl, by simpa using h, fun _ _ => rfl⟩
  | c :: cs, s, ms, h => by
      have hstep : sfStep s (SFEvent.arrive c k)
          = SFState.mk (joinEntry k c s.inflight) s.execs s.results := by
        simp only [sfStep, h]
      have hjoin : lookupEntry k (joinEntry k c s.inflight) = some (ms ++ [c]) := by
        rw [lookupEntry_joinEntry_same, h]
        rfl
      obtain ⟨infl2, hrun, hk, hother⟩ :=
        runSF_arrivals k cs (SFState.mk (joinEntry k c s.inflight) s.execs s.results)
          (ms ++ [c]) hjoin
      refine ⟨infl2, ?_, ?_, ?_⟩
      · show runSF (sfStep s (SFEvent.arrive c k)) (cs.map (SFEvent.arrive · k)) = _
        rw [hstep, hrun]
      · rw [hk, List.append_assoc]
        rfl
      · intro k2 hne
        rw [hother k2 hne]
        exact lookupEntry_joinEntry_other k k2 c s.inflight hne

/-! ### C1: deduplication of concurrent identical requests -/

/-- C1: from any registry state with no in-flight entry for fingerprint k,
a window in which N >= 1 callers all arrive before the owning call
completes produces exactly one downstream execution for k; every caller
receives the same outcome (the completing result as Process wraps it);
executions and in-flight entries of every other fingerprint are untouched;
and the entry for k is gone once the window closes. -/
theorem singleflight_dedup (s : SFState) (k : SFKey) (cs : List SFCaller)
    (r : Option Response × Option GoError)
    (hk : lookupEntry k s.inflight = none) (hcs : cs ≠ []) :
    ((runSF s (cs.map (SFEvent.arrive · k) ++ [SFEvent.complete k r])).execs.filter
        (fun e => e.1 == k)).length
      = (s.execs.filter (fun e => e.1 == k)).length + 1
    ∧ (∀ c ∈ cs, (c, sfProcessResult r)
        ∈ (runSF s (cs.map (SFEvent.arrive · k) ++ [SFEvent.complete k r])).results)
    ∧ (∀ k2, k2 ≠ k →
        (runSF s (cs.map (SFEvent.arrive · k) ++ [SFEvent.complete k r])).execs.filter
            (fun e => e.1 == k2)
          = s.execs.filter (fun e => e.1 == k2))
    ∧ (∀ k2, k2 ≠ k →
        lookupEntry k2 (runSF s (cs.map (SFEvent.arrive · k) ++ [SFEvent.complete k r])).inflight
          = lookupEntry k2 s.inflight)
    ∧ lookupEntry k (runSF s (cs.map (SFEvent.arrive · k) ++ [SFEvent.complete k r])).inflight
        = none := by
  cases cs with
  | nil => exact absurd rfl hcs
  | cons c cs =>
      -- the first caller creates the entry and performs the downstream call
      have hstep : sfStep s (SFEvent.arrive c k)
          = SFState.mk ((k, [c]) :: s.inflight) (s.execs ++ [(k, c)]) s.results := by
        simp only [sfStep, hk]
      have hlook1 : lookupEntry k ((k, [c]) :: s.inflight) = some [c] := by
        simp [lookupEntry]
      obtain ⟨infl2, hrun, hkent, hother⟩ :=
        runSF_arrivals k cs
          (SFState.mk ((k, [c]) :: s.inflight) (s.execs ++ [(k, c)]) s.results) [c] hlook1
      -- state after all arrivals, then the completion
      have hfull : runSF s ((c :: cs).map (SFEvent.arrive · k) ++ [SFEvent.complete k r])
          = sfStep (SFState.mk infl2 (s.execs ++ [(k, c)]) s.results) (SFEvent.complete k r) := by
        show runSF (sfStep s (SFEvent.arrive c k))
            (cs.map (SFEvent.arrive · k) ++ [SFEvent.complete k r]) = _
        rw [hstep]
        show (cs.map (SFEvent.arrive · k) ++ [SFEvent.complete k r]).foldl sfStep _ = _
        rw [List.foldl_append]
        show sfStep (runSF _ (cs.map (SFEvent.arrive · k))) (SFEvent.complete k r) = _
        rw [hrun]
      have hcomplete : sfStep (SFState.mk infl2 (s.execs ++ [(k, c)]) s.results)
            (SFEvent.complete k r)
          = SFState.mk (eraseKey k infl2) (s.execs ++ [(k, c)])
              (s.results ++ ((c :: cs).map (fun c2 => (c2, sfProcessResult r)))) := by
        simp only [sfStep, hkent]
        rfl
      rw [hfull, hcomplete]
      refine ⟨?_, ?_, ?_, ?_, ?_⟩
      · simp [List.filter_append]
      · intro c2 hc2
        simp only [List.mem_append, List.mem_map]
        exact Or.inr ⟨c2, hc2, rfl⟩
      · intro k2 hne
        have hb : ((k, c).1 == k2) = false := by
          simpa using fun h => hne (h.symm)
        simp [List.filter_append, hb]
      · intro k2 hne
        show lookupEntry k2 (eraseKey k infl2) = _
        rw [lookupEntry_eraseKey_other k k2 infl2 hne, hother k2 hne]
        simp only [lookupEntry]
        rw [if_neg (fun h => hne (h.symm))]
      · exact lookupEntry_eraseKey_same k infl2

/-! ### C9: request fingerprints -/

/-- Reference vectors pinning the XXH64 embedding to the published test
values (lengths 0, 1, 3 and 39 bytes; the last exercises the 32-byte stripe
path). -/
theorem xxh64_reference_vectors :
    xxh64 [] = 0xEF46DB3751D8E999
    ∧ xxh64 (strBytes "a") = 0xD24EC4F1A98C6E5B
    ∧ xxh64 (strBytes "abc") = 0x44BC2CF5AD770999
    ∧ xxh64 (strBytes "Nobody inspects the spammish repetition") = 0xFBCEA83C8A378BF1 := by
  decide

set_option maxRecDepth 100000 in
/-- C9: generateRequestKey hashes the headers in Go map iteration order,
which the language varies between runs.  The same request — method GET, URL
http://x, the header set {A: 1, B: 2} (a permutation in the two iteration
orders), no body — produces two different keys under the two orders, so the
fingerprint is not a deterministic function of the header set; the
Authorization header, by contrast, never influences the key. -/
theorem fingerprint_map_order_dependent_cx :
    (([("A", ["1"]), ("B", ["2"])] : List (String × List String)).Perm
        [("B", ["2"]), ("A", ["1"])])
    ∧ generateRequestKey ⟨"GET", "http://x", [("A", ["1"]), ("B", ["2"])], none⟩
        ≠ generateRequestKey ⟨"GET", "http://x", [("B", ["2"]), ("A", ["1"])], none⟩
    ∧ generateRequestKey ⟨"GET", "http://x", [("Authorization", ["secret1"]), ("A", ["1"])], none⟩
        = generateRequestKey ⟨"GET", "http://x", [("Authorization", ["other2"]), ("A", ["1"])], none⟩ := by
  refine ⟨by decide, by decide, by decide⟩

/-- Witness for C1: three concurrent callers of one fingerprint on an empty
registry. -/
theorem singleflight_dedup_witness :
    lookupEntry "k" (SFState.mk [] [] []).inflight = none
    ∧ ([1, 2, 3] : List SFCaller) ≠ []
    ∧ ((runSF (SFState.mk [] [] [])
          ([1, 2, 3].map (SFEvent.arrive · "k")
            ++ [SFEvent.complete "k" (some ⟨200⟩, none)])).execs.filter
        (fun e => e.1 == "k")).length
      = ((SFState.mk [] [] []).execs.filter (fun e => e.1 == "k")).length + 1
    ∧ (∀ c ∈ ([1, 2, 3] : List SFCaller), (c, sfProcessResult (some ⟨200⟩, none))
        ∈ (runSF (SFState.mk [] [] [])
            ([1, 2, 3].map (SFEvent.arrive · "k")
              ++ [SFEvent.complete "k" (some ⟨200⟩, none)])).results) :=
  ⟨rfl, by decide,
   (singleflight_dedup (SFState.mk [] [] []) "k" [1, 2, 3] (some ⟨200⟩, none) rfl (by decide)).1,
   (singleflight_dedup (SFState.mk [] [] []) "k" [1, 2, 3] (some ⟨200⟩, none) rfl (by decide)).2.1⟩

/-! ### Insertion sort lemmas for the chain ordering claim -/

/-- Elements of an insertion step come from the inserted element or the
accumulator. -/
theorem insRev_mem (x z : PM) (acc : List PM) (h : z ∈ insRev pmLess x acc) :
    z = x ∨ z ∈ acc := by
  induction acc with
  | nil => simpa [insRev] using h
  | cons y ys ih =>
      by_cases hc : pmLess x y = true
      · simp only [insRev, if_pos hc] at h
        rcases List.mem_cons.mp h with rfl | h2
        · exact Or.inr (List.mem_cons_self _ _)
        · rcases ih h2 with h3 | h3
          · exact Or.inl h3
          · exact Or.inr (List.mem_cons_of_mem _ h3)
      · simp only [insRev, if_neg hc] at h
        rcases List.mem_cons.mp h with rfl | h2
        · exact Or.inl rfl
        · exact Or.inr h2

/-- An insertion step keeps the reversed accumulator ascending in
priority. -/
theorem insRev_pairwise (x : PM) (acc : List PM)
    (h : acc.Pairwise (fun a b => a.priority ≤ b.priority)) :
    (insRev pmLess x acc).Pairwise (fun a b => a.priority ≤ b.priority) := by
  induction acc with
  | nil => simp [insRev]
  | cons y ys ih =>
      rw [List.pairwise_cons] at h
      obtain ⟨hy, hys⟩ := h
      by_cases hc : pmLess x y = true
      · have hxy : y.priority < x.priority := by simpa [pmLess] using hc
        simp only [insRev, if_pos hc]
        rw [List.pairwise_cons]
        refine ⟨?_, ih hys⟩
        intro z hz
        rcases insRev_mem x z ys hz with rfl | h3
        · exact le_of_lt hxy
        · exact hy z h3
      · have hxy : x.priority ≤ y.priority := by
          have hnlt : ¬ y.priority < x.priority := by simpa [pmLess] using hc
          omega
        simp only [insRev, if_neg hc]
        rw [List.pairwise_cons]
        refine ⟨?_, List.pairwise_cons.mpr ⟨hy, hys⟩⟩
        intro z hz
        rcases List.mem_cons.mp hz with rfl | h3
        · exact hxy
        · exact le_trans hxy (hy z h3)

/-- The insertion fold keeps the accumulator ascending. -/
theorem foldl_insRev_pairwise (l : List PM) : ∀ acc,
    acc.Pairwise (fun a b => a.priority ≤ b.priority) →
    (l.foldl (fun acc z => insRev pmLess z acc) acc).Pairwise
      (fun a b => a.priority ≤ b.priority) := by
  induction l with
  | nil => intro acc h; exact h
  | cons x xs ih => intro acc h; exact ih _ (insRev_pairwise x acc h)

/-- An inserted element of priority p goes in front of the accumulator's
elements of priority p: the walk only passes elements of strictly smaller
priority. -/
theorem insRev_filter_eq (x : PM) (p : Int) (hx : x.priority = p) (acc : List PM) :
    (insRev pmLess x acc).filter (fun z => z.priority == p)
      = x :: acc.filter (fun z => z.priority == p) := by
  induction acc with
  | nil => simp [insRev, List.filter, hx]
  | cons y ys ih =>
      by_cases hc : pmLess x y = true
      · have hylt : y.priority < x.priority := by simpa [pmLess] using hc
        have hyne : (y.priority == p) = false := by
          rw [hx] at hylt
          simpa using ne_of_lt hylt
        simp only [insRev, if_pos hc, List.filter, hyne]
        exact ih
      · simp only [insRev, if_neg hc, List.filter, hx, beq_self_eq_true]

/-- An inserted element of a different priority leaves the p-filtered
accumulator untouched. -/
theorem insRev_filter_ne (x : PM) (p : Int) (hx : ¬ x.priority = p) (acc : List PM) :
    (insRev pmLess x acc).filter (fun z => z.priority == p)
      = acc.filter (fun z => z.priority == p) := by
  have hxf : (x.priority == p) = false := by simpa using hx
  induction acc with
  | nil => simp [insRev, List.filter, hxf]
  | cons y ys ih =>
      by_cases hc : pmLess x y = true
      · simp only [insRev, if_pos hc, List.filter]
        cases hyp : (y.priority == p) <;> simp [ih]
      · simp only [insRev, if_neg hc, List.filter, hxf]

/-- The insertion fold reverses each priority class. -/
theorem foldl_insRev_filter (p : Int) : ∀ (l acc : List PM),
    (l.foldl (fun acc z => insRev pmLess z acc) acc).filter (fun z => z.priority == p)
      = (l.filter (fun z => z.priority == p)).reverse
          ++ acc.filter (fun z => z.priority == p)
  | [], acc => by simp
  | x :: xs, acc => by
      by_cases hx : x.priority = p
      · have hxt : (x.priority == p) = true := by simpa using hx
        simp only [List.foldl_cons, List.filter, hxt]
        rw [foldl_insRev_filter p xs (insRev pmLess x acc), insRev_filter_eq x p hx acc]
        simp
      · have hxf : (x.priority == p) = false := by simpa using hx
        simp only [List.foldl_cons, List.filter, hxf]
        rw [foldl_insRev_filter p xs (insRev pmLess x acc), insRev_filter_ne x p hx acc]

/-- Stability of the whole insertion sort: every priority class keeps its
original order. -/
theorem insertionSortList_filter (l : List PM) (p : Int) :
    (insertionSortList pmLess l).filter (fun z => z.priority == p)
      = l.filter (fun z => z.priority == p) := by
  unfold insertionSortList
  rw [List.filter_reverse, foldl_insRev_filter p l []]
  simp

/-- The insertion sort output is descending in priority. -/
theorem insertionSortList_sorted (l : List PM) :
    (insertionSortList pmLess l).Pairwise (fun a b => b.priority ≤ a.priority) := by
  unfold insertionSortList
  rw [List.pairwise_reverse]
  exact foldl_insRev_pairwise l [] List.Pairwise.nil

/-- An insertion step is a permutation. -/
theorem insRev_perm (x : PM) (acc : List PM) : (insRev pmLess x acc).Perm (x :: acc) := by
  induction acc with
  | nil => simp [insRev]
  | cons y ys ih =>
      by_cases hc : pmLess x y = true
      · simp only [insRev, if_pos hc]
        exact (ih.cons y).trans (List.Perm.swap x y ys)
      · simp only [insRev, if_neg hc]
        exact List.Perm.refl _

/-- The insertion fold is a permutation. -/
theorem foldl_insRev_perm : ∀ (l acc : List PM),
    (l.foldl (fun acc z => insRev pmLess z acc) acc).Perm (l ++ acc)
  | [], acc => by simp
  | x :: xs, acc => by
      simp only [List.foldl_cons]
      refine (foldl_insRev_perm xs (insRev pmLess x acc)).trans ?_
      refine (List.Perm.append_left xs (insRev_perm x acc)).trans ?_
      exact List.perm_middle

/-- The insertion sort permutes its input. -/
theorem insertionSortList_perm (l : List PM) : (insertionSortList pmLess l).Perm l := by
  unfold insertionSortList
  refine (List.reverse_perm _).trans ?_
  simpa using foldl_insRev_perm l []

set_option maxHeartbeats 1000000 in
/-- For at most 12 entries, sort.Slice is exactly the insertion sort (the
pdqsort short-range branch). -/
theorem goSortSlice_small {α : Type} [Inhabited α] (lt : α → α → Bool) (l : List α)
    (h : l.length ≤ 12) :
    goSortSlice lt l = insertionSortList lt l := by
  unfold goSortSlice
  rw [pdqsortLoop.eq_def]
  dsimp only
  have hcond : l.length - 0 ≤ 12 := by omega
  rw [if_pos hcond]
  unfold insertionSortRange
  simp

/-- addOrReplace with a type-matching entry present replaces the first such
entry in place. -/
theorem addOrReplace_replaces : ∀ (ms : List PM) (p : Int) (m : GoMiddleware),
    (∃ pm ∈ ms, pm.mw.typeId = m.typeId) →
    addOrReplace ms p m
      = ms.set (ms.findIdx (fun pm => pm.mw.typeId == m.typeId)) ⟨m, p⟩
  | [], p, m, h => by simp at h
  | pm0 :: rest, p, m, h => by
      by_cases hid : pm0.mw.typeId = m.typeId
      · have ht : (fun pm => pm.mw.typeId == m.typeId) pm0 = true := by simpa using hid
        simp only [addOrReplace, if_pos hid, List.findIdx_cons, ht, cond_true, List.set]
      · obtain ⟨pm1, hmem, hq⟩ := h
        rcases List.mem_cons.mp hmem with rfl | hmem2
        · exact absurd hq hid
        · have hf : (fun pm => pm.mw.typeId == m.typeId) pm0 = false := by simpa using hid
          simp only [addOrReplace, if_neg hid, List.findIdx_cons, hf, cond_false, List.set]
          exact congrArg (pm0 :: ·) (addOrReplace_replaces rest p m ⟨pm1, hmem2, hq⟩)

/-- addOrReplace with no type-matching entry appends. -/
theorem addOrReplace_appends : ∀ (ms : List PM) (p : Int) (m : GoMiddleware),
    (∀ pm ∈ ms, pm.mw.typeId ≠ m.typeId) →
    addOrReplace ms p m = ms ++ [⟨m, p⟩]
  | [], _, _, _ => rfl
  | pm0 :: rest, p, m, h => by
      have hid : pm0.mw.typeId ≠ m.typeId := h pm0 (List.mem_cons_self _ _)
      simp only [addOrReplace, if_neg hid, List.cons_append]
      exact congrArg (pm0 :: ·)
        (addOrReplace_appends rest p m (fun pm hm => h pm (List.mem_cons_of_mem _ hm)))

/-! ### C4: chain ordering, stability and replacement -/

/-- C4 counterexample: a sequence of thirteen Then calls on an empty chain
(distinct middleware types with priorities 9, 8, 7, 6, 5, 5, 4, 3, 3, 2, 1,
1, then 10).  After the twelve first calls the chain lists the type-8
middleware before the type-9 middleware, both at priority 3.  The thirteenth
call pushes the chain beyond sort.Slice's insertion-sort threshold, pdqsort
partitions, and the final chain lists type 9 before type 8 — equal-priority
entries do not remain in insertion order, refuting the stable-re-sorting
claim. -/
theorem chain_equal_priority_reordered_cx :
    (ThenSeq [] [(9, [⟨1, 1⟩]), (8, [⟨2, 2⟩]), (7, [⟨3, 3⟩]), (6, [⟨4, 4⟩]), (5, [⟨5, 5⟩]),
        (5, [⟨6, 6⟩]), (4, [⟨7, 7⟩]), (3, [⟨8, 8⟩]), (3, [⟨9, 9⟩]), (2, [⟨10, 10⟩]),
        (1, [⟨11, 11⟩]), (1, [⟨12, 12⟩]), (10, [⟨13, 13⟩])]).map
        (fun pm => (pm.mw.typeId, pm.priority))
      = [(13, 10), (1, 9), (2, 8), (3, 7), (4, 6), (5, 5), (6, 5), (7, 4), (9, 3), (8, 3),
         (10, 2), (11, 1), (12, 1)] := by
  decide

/-- C4 amended: for chains of at most 12 entries (where sort.Slice runs its
stable insertion sort) the re-sorted chain is a permutation of the entries,
descending in priority, with every equal-priority class kept in insertion
order; beyond 12 entries equal-priority classes may be permuted (see the
counterexample).  Replacement holds at any length: adding a middleware whose
type matches an existing entry rewrites exactly that entry in place (same
index, same length, other entries untouched), and otherwise the middleware
is appended. -/
theorem chain_order_invariant :
    (∀ ms : List PM, ms.length ≤ 12 →
        (sortMiddlewares ms).Pairwise (fun a b => b.priority ≤ a.priority)
        ∧ (∀ p : Int, (sortMiddlewares ms).filter (fun z => z.priority == p)
            = ms.filter (fun z => z.priority == p))
        ∧ (sortMiddlewares ms).Perm ms)
    ∧ (∀ (ms : List PM) (p : Int) (m : GoMiddleware),
        (∃ pm ∈ ms, pm.mw.typeId = m.typeId) →
        addOrReplace ms p m
          = ms.set (ms.findIdx (fun pm => pm.mw.typeId == m.typeId)) ⟨m, p⟩)
    ∧ (∀ (ms : List PM) (p : Int) (m : GoMiddleware),
        (∀ pm ∈ ms, pm.mw.typeId ≠ m.typeId) →
        addOrReplace ms p m = ms ++ [⟨m, p⟩]) := by
  refine ⟨?_, addOrReplace_replaces, addOrReplace_appends⟩
  intro ms hlen
  have hs : sortMiddlewares ms = insertionSortList pmLess ms := goSortSlice_small pmLess ms hlen
  rw [hs]
  exact ⟨insertionSortList_sorted ms, insertionSortList_filter ms, insertionSortList_perm ms⟩

/-- Witness for C4: a two-entry chain with equal priorities, and both
replacement shapes. -/
theorem chain_order_invariant_witness :
    (([⟨⟨1, 1⟩, 5⟩, ⟨⟨2, 2⟩, 5⟩] : List PM).length ≤ 12)
    ∧ (sortMiddlewares [⟨⟨1, 1⟩, 5⟩, ⟨⟨2, 2⟩, 5⟩]).Pairwise (fun a b => b.priority ≤ a.priority)
    ∧ (∃ pm ∈ ([⟨⟨1, 1⟩, 5⟩, ⟨⟨2, 2⟩, 5⟩] : List PM), pm.mw.typeId = (2 : Nat))
    ∧ addOrReplace [⟨⟨1, 1⟩, 5⟩, ⟨⟨2, 2⟩, 5⟩] 7 ⟨2, 9⟩
        = ([⟨⟨1, 1⟩, 5⟩, ⟨⟨2, 2⟩, 5⟩] : List PM).set
            (([⟨⟨1, 1⟩, 5⟩, ⟨⟨2, 2⟩, 5⟩] : List PM).findIdx
              (fun pm => pm.mw.typeId == (2 : Nat))) ⟨⟨2, 9⟩, 7⟩
    ∧ addOrReplace [⟨⟨1, 1⟩, 5⟩] 7 ⟨3, 9⟩ = [⟨⟨1, 1⟩, 5⟩] ++ [⟨⟨3, 9⟩, 7⟩] :=
  ⟨by decide,
   (chain_order_invariant.1 [⟨⟨1, 1⟩, 5⟩, ⟨⟨2, 2⟩, 5⟩] (by decide)).1,
   ⟨⟨⟨2, 2⟩, 5⟩, by decide, rfl⟩,
   chain_order_invariant.2.1 [⟨⟨1, 1⟩, 5⟩, ⟨⟨2, 2⟩, 5⟩] 7 ⟨2, 9⟩
     ⟨⟨⟨2, 2⟩, 5⟩, by decide, rfl⟩,
   chain_order_invariant.2.2 [⟨⟨1, 1⟩, 5⟩] 7 ⟨3, 9⟩ (by decide)⟩

/-! ### C8: round-robin rotation -/

/-- C8: with the static pool [A, B, C] and no concurrency, six successive
selections from a fresh rotator yield exactly A, B, C, A, B, C; in general a
selection over a non-empty pool at any cursor below 2^64 picks the element
at index cursor mod pool size and advances the cursor by exactly one, modulo
2^64. -/
theorem rotator_round_robin :
    ((rotateRun ["A", "B", "C"] 0 6).1
      = [some "A", some "B", some "C", some "A", some "B", some "C"])
    ∧ (∀ (α : Type) (inst : Inhabited α) (pool : List α) (cursor : Nat),
        pool ≠ [] → cursor < 18446744073709551616 →
        selectRotate pool cursor
          = (some (pool.getD (cursor % pool.length) default),
             (cursor + 1) % 18446744073709551616)) := by
  constructor
  · decide
  · intro α inst pool cursor hpool hcur
    have hlen : ¬ pool.length = 0 := fun h => hpool (List.length_eq_zero.mp h)
    have hcursor : ((cursor + 1) % 18446744073709551616 + 18446744073709551615)
        % 18446744073709551616 = cursor := by
      rcases Nat.lt_or_ge (cursor + 1) 18446744073709551616 with hlt | hge
      · rw [Nat.mod_eq_of_lt hlt]
        have : cursor + 1 + 18446744073709551615 = cursor + 18446744073709551616 := by omega
        rw [this, Nat.add_mod_right, Nat.mod_eq_of_lt hcur]
      · have heq : cursor + 1 = 18446744073709551616 := by omega
        rw [heq]
        simp only [Nat.mod_self, Nat.zero_add]
        rw [Nat.mod_eq_of_lt (by omega)]
        omega
    simp only [selectRotate, hlen, if_false, hcursor]

/-- Witness for C8: the general selection law at pool [A] and cursor 0. -/
theorem rotator_round_robin_witness :
    (["A"] : List String) ≠ []
    ∧ selectRotate ["A"] 0 = (some "A", 1) :=
  ⟨by decide, by
    have h := rotator_round_robin.2 String ⟨"A"⟩ ["A"] 0 (by decide) (by decide)
    simpa using h⟩

/-! ### C6: the per-attempt HTTP status policy -/

/-- C6 counterexample: a 2xx response accompanied by a non-nil temporary
error is retried — with maxAttempts 1 the downstream runs twice, although
the claim says a 2xx response is never retried regardless of any
accompanying error. -/
theorem retry_2xx_with_error_retried_cx :
    (RetryProcess 1 (fun _ => (some ⟨200⟩, some ErrNetwork))).1 = 2
    ∧ ¬ (RetryProcess 1 (fun _ => (some ⟨200⟩, some ErrNetwork))).1 = 1 := by
  decide

/-- C6 amended: a status of 500+ or 429 is retried to exhaustion (M+1
calls); any other status of 400+ stops after exactly one call with
ErrBadStatus; a status below 400 is success only when the downstream error
is nil (one call, response and nil error returned) — with a non-nil
temporary error the classification falls through to the error and the call
is retried to exhaustion. -/
theorem retry_http_status_policy :
    (∀ (M s : Nat), 500 ≤ s →
        (RetryProcess M (fun _ => (some ⟨s⟩, none))).1 = M + 1)
    ∧ (∀ M : Nat, (RetryProcess M (fun _ => (some ⟨429⟩, none))).1 = M + 1)
    ∧ (∀ (M s : Nat), 400 ≤ s → s < 500 → ¬ s = 429 →
        RetryProcess M (fun _ => (some ⟨s⟩, none)) = (1, (some ⟨s⟩, some ErrBadStatus)))
    ∧ (∀ (M s : Nat), s < 400 →
        RetryProcess M (fun _ => (some ⟨s⟩, none)) = (1, (some ⟨s⟩, none)))
    ∧ (∀ (M s : Nat), s < 400 →
        (RetryProcess M (fun _ => (some ⟨s⟩, some ErrNetwork))).1 = M + 1) := by
  refine ⟨?_, ?_, ?_, ?_, ?_⟩
  · intro M s hs
    have h : ∀ n : Nat, handleRetryError ((fun (_ : Nat) => ((some ⟨s⟩ : Option Response), (none : Option GoError))) n).1 ((fun (_ : Nat) => ((some ⟨s⟩ : Option Response), (none : Option GoError))) n).2 = .transient ErrBadStatus := by
      intro n
      simp [handleRetryError, hs]
    rw [RetryProcess_transient M _ (fun _ => ErrBadStatus) h]
  · intro M
    have h : ∀ n : Nat, handleRetryError ((fun (_ : Nat) => ((some ⟨429⟩ : Option Response), (none : Option GoError))) n).1 ((fun (_ : Nat) => ((some ⟨429⟩ : Option Response), (none : Option GoError))) n).2 = .transient ErrBadStatus := by
      intro n
      simp [handleRetryError]
    rw [RetryProcess_transient M _ (fun _ => ErrBadStatus) h]
  · intro M s h4 h5 h429
    have h : handleRetryError (some (⟨s⟩ : Response)) none = .permanentStop ErrBadStatus := by
      have hns : ¬ 500 ≤ s := by omega
      simp [handleRetryError, hns, h4, Nat.beq_eq_true_eq, h429]
    exact RetryProcess_permanent M _ ErrBadStatus h
  · intro M s hs
    have h : handleRetryError (some (⟨s⟩ : Response)) none = .done := by
      have hns : ¬ 500 ≤ s := by omega
      have hn4 : ¬ 400 ≤ s := by omega
      have hne : ¬ s = 429 := by omega
      simp [handleRetryError, hns, hn4, Nat.beq_eq_true_eq, hne, classifyErr]
    exact RetryProcess_done M _ h
  · intro M s hs
    have h : ∀ n : Nat, handleRetryError ((fun (_ : Nat) => ((some ⟨s⟩ : Option Response), (some ErrNetwork : Option GoError))) n).1 ((fun (_ : Nat) => ((some ⟨s⟩ : Option Response), (some ErrNetwork : Option GoError))) n).2 = .transient ErrNetwork := by
      intro n
      have hns : ¬ 500 ≤ s := by omega
      have hn4 : ¬ 400 ≤ s := by omega
      have hne : ¬ s = 429 := by omega
      simp [handleRetryError, hns, hn4, Nat.beq_eq_true_eq, hne, classifyErr]
      decide
    rw [RetryProcess_transient M _ (fun _ => ErrNetwork) h]

/-- Witness for C6: all five parts applied at concrete statuses. -/
theorem retry_http_status_policy_witness :
    ((RetryProcess 1 (fun _ => (some ⟨503⟩, none))).1 = 2)
    ∧ ((RetryProcess 1 (fun _ => (some ⟨429⟩, none))).1 = 2)
    ∧ (RetryProcess 3 (fun _ => (some ⟨404⟩, none)) = (1, (some ⟨404⟩, some ErrBadStatus)))
    ∧ (RetryProcess 3 (fun _ => (some ⟨200⟩, none)) = (1, (some ⟨200⟩, none)))
    ∧ ((RetryProcess 1 (fun _ => (some ⟨200⟩, some ErrNetwork))).1 = 2) :=
  ⟨retry_http_status_policy.1 1 503 (by decide),
   retry_http_status_policy.2.1 1,
   retry_http_status_policy.2.2.1 3 404 (by decide) (by decide) (by decide),
   retry_http_status_policy.2.2.2.1 3 200 (by decide),
   retry_http_status_policy.2.2.2.2 1 200 (by decide)⟩

end Axonet
